import Mathlib

/-
Shallow embedding of the pricing-support core of the pair_concentrated_inj
contract (astroport-core): the observation accumulator and the dual-venue
balance reconciler from src/contracts/pair_concentrated_inj/src/utils.rs.

Machine decimals (cosmwasm Decimal / Decimal256) are embedded as exact
rationals (Rat); unsigned integer amounts (Uint128) as Nat; timestamps as
Nat seconds.  Fallible Rust paths (error returns and the division-by-zero
panic of Decimal::from_ratio, which aborts the transaction leaving state
unchanged) are embedded as Except: an error result carries no state,
matching the transactional all-or-nothing semantics of the execution
environment.
-/

namespace AstroportInj

/-- Error taxonomy of the two call paths (utils.rs uses ContractError /
BufferResult; a zero quote amount aborts via Decimal::from_ratio). -/
inductive ContractError where
  | DivisionByZero
  | UnknownAsset
  | SmaError
deriving DecidableEq

/-- Mirrors astroport::observation::Observation: one sampled price and the
simple moving average as of that sample. -/
structure Observation where
  ts : Nat
  price : Rat
  price_sma : Rat
deriving DecidableEq

/-- Mirrors astroport::observation::PrecommitObservation: the single-slot
record of the most recent not-yet-finalized swap sample. -/
structure PrecommitObservation where
  base_amount : Nat
  quote_amount : Nat
  precommit_ts : Nat
deriving DecidableEq

/-- Modelled from the spec: the state of the fixed-capacity circular
observation buffer managed by astroport_circular_buffer::BufferManager
(repository package not present under src/).  A fixed capacity, a head
index advancing modulo the capacity, and one optional slot per index. -/
structure BufferState where
  capacity : Nat
  head : Nat
  slots : List (Option Observation)
deriving DecidableEq

/-- Modelled from the spec: buffer initialization with a given capacity;
head starts at 0 and every slot is empty. -/
def BufferState.init (c : Nat) : BufferState :=
  ⟨c, 0, List.replicate c none⟩

/-- Modelled from the spec: readLast returns the observation addressed by
the head pointer, or none while that slot has never been written. -/
def BufferState.read_last (b : BufferState) : Option Observation :=
  b.slots.getD b.head none

/-- Modelled from the spec: readAt by index, interpreted modulo the
capacity (the spec invariant speaks of the entry at head+1 (mod C)). -/
def BufferState.read_single (b : BufferState) (i : Nat) : Option Observation :=
  b.slots.getD (i % b.capacity) none

/-- Modelled from the spec: append advances the head modulo the capacity
and overwrites the slot under the new head, evicting the oldest entry
once the buffer has wrapped. -/
def BufferState.instant_push (b : BufferState) (o : Observation) : BufferState :=
  { b with head := (b.head + 1) % b.capacity,
           slots := b.slots.set ((b.head + 1) % b.capacity) (some o) }

/-- Count of slots holding a live observation. -/
def BufferState.countFilled (b : BufferState) : Nat :=
  b.slots.countP (fun o => o.isSome)

/-- Well-formedness fixed at pool initialization: the slot list has
exactly capacity entries. -/
def BufferState.WF (b : BufferState) : Prop :=
  b.slots.length = b.capacity

/-- Subset of the orderbook state relevant here: the immutable readiness
threshold and the monotonic readiness flag. -/
structure OrderbookState where
  min_trades_to_avg : Nat
  ready : Bool
deriving DecidableEq

/-- Mirrors OrderbookState::ready(bool): overwrite the readiness flag. -/
def OrderbookState.set_ready (ob : OrderbookState) (v : Bool) : OrderbookState :=
  { ob with ready := v }

/-- Persistent contract storage touched by the accumulator: the single
precommit slot and the circular observation buffer. -/
structure ContractStorage where
  precommit : Option PrecommitObservation
  observations : BufferState
deriving DecidableEq

/-- Embedding of Decimal::from_ratio(base, quote): the exact ratio, with a
zero denominator aborting the call (cosmwasm panics there; the
transaction fails with the division error and commits nothing). -/
def priceFromAmounts (base quote : Nat) : Except ContractError Rat :=
  if quote = 0 then .error .DivisionByZero
  else .ok ((base : Rat) / (quote : Rat))

/-- Modelled from the spec: astroport::observation::safe_sma_calculation
(repository package not present under src/), the sliding-window update
used once the buffer has wrapped: last_sma + (observed - oldest) / count.
A zero count fails (checked division). -/
def safe_sma_calculation (sma oldest_price : Rat) (count : Nat)
    (new_price : Rat) : Option Rat :=
  if count = 0 then none
  else some (sma + (new_price - oldest_price) / (count : Rat))

/-- Modelled from the spec: astroport::observation::safe_sma_buffer_not_full
(repository package not present under src/), the cumulative-mean update
used before the buffer wraps: last_sma + (observed - last_sma) / (count + 1). -/
def safe_sma_buffer_not_full (sma : Rat) (count : Nat) (new_price : Rat) : Rat :=
  sma + (new_price - sma) / ((count : Rat) + 1)

/-- Mirrors utils.rs lines 100-124: build the observation to append when
the buffer already holds a last observation.  If the slot after the head
is occupied the buffer has wrapped and the sliding-window update runs with
count = capacity; otherwise the cumulative-mean update runs with
count = head. -/
def new_observation_for (buffer : BufferState) (last_obs : Observation)
    (observed_price : Rat) (ts : Nat) : Except ContractError Observation :=
  match buffer.read_single (buffer.head + 1) with
  | some oldest_obs =>
    match safe_sma_calculation last_obs.price_sma oldest_obs.price
        buffer.capacity observed_price with
    | some price_sma => .ok ⟨ts, observed_price, price_sma⟩
    | none => .error .SmaError
  | none =>
    .ok ⟨ts, observed_price,
         safe_sma_buffer_not_full last_obs.price_sma buffer.head observed_price⟩

/-- Mirrors utils.rs lines 126-129: open the readiness gate when it is not
yet open and head + 1 reaches the configured threshold. -/
def gate_update (buffer : BufferState) (ob : OrderbookState) : OrderbookState :=
  if ob.ready = false ∧ ob.min_trades_to_avg ≤ buffer.head + 1 then
    ob.set_ready true
  else ob

/-- Mirrors utils.rs accumulate_swap_sizes (lines 82-148).  Returns the
updated storage and orderbook state, or an error (which, by the
transactional model, commits nothing). -/
def accumulate_swap_sizes (s : ContractStorage) (block_time : Nat)
    (ob : OrderbookState) :
    Except ContractError (ContractStorage × OrderbookState) :=
  match s.precommit with
  | none => .ok (s, ob)
  | some pc =>
    match priceFromAmounts pc.base_amount pc.quote_amount with
    | .error e => .error e
    | .ok observed_price =>
      match s.observations.read_last with
      | some last_obs =>
        if last_obs.ts < pc.precommit_ts then
          match new_observation_for s.observations last_obs observed_price
              pc.precommit_ts with
          | .error e => .error e
          | .ok new_observation =>
            .ok ({ s with observations :=
                     s.observations.instant_push new_observation },
                 gate_update s.observations ob)
        else
          .ok (s, ob)
      | none =>
        if pc.precommit_ts < block_time then
          let seed_obs : Observation :=
            ⟨pc.precommit_ts, observed_price, observed_price⟩
          .ok ({ s with observations := s.observations.instant_push seed_obs }, ob)
        else
          .ok (s, ob)

/-- One externally driven round: the swap path may first overwrite the
precommit slot (a separately committed transaction), then the accumulator
runs at some block time; a failed accumulation commits nothing. -/
def accumulate_step (s : ContractStorage) (ob : OrderbookState)
    (inp : Option PrecommitObservation × Nat) :
    ContractStorage × OrderbookState :=
  let s0 : ContractStorage := { s with precommit := inp.1 }
  match accumulate_swap_sizes s0 inp.2 ob with
  | .ok r => r
  | .error _ => (s0, ob)

/-- A sequence of externally driven rounds. -/
def run_accumulation (s : ContractStorage) (ob : OrderbookState) :
    List (Option PrecommitObservation × Nat) → ContractStorage × OrderbookState
  | [] => (s, ob)
  | inp :: rest =>
    let r := accumulate_step s ob inp
    run_accumulation r.1 r.2 rest

/-
Balance reconciliation (utils.rs lines 18-79).  Asset identifiers are
abstracted as Nat; raw amounts (Uint128) as Nat; Decimal256 as Rat.  The
external custody query (pair_info.query_pools) is represented by its
result: one raw-amount entry per configured asset, order preserved.  The
external venue query (get_subaccount_balances_dec) is represented by its
result, a list of decimal amounts.
-/

/-- Raw on-chain asset: identifier plus integer amount in native precision. -/
structure Asset where
  info : Nat
  amount : Nat
deriving DecidableEq

/-- Asset with its amount converted to the shared decimal representation. -/
structure DecimalAsset where
  info : Nat
  amount : Rat
deriving DecidableEq

/-- Modelled from the spec: the asset-to-precision table backing
astroport_pcl_common::state::Precisions (repository package not present
under src/). -/
def Precisions : Type := List (Nat × Nat)

/-- Modelled from the spec: precision lookup; a missing asset is a hard
UnknownAsset error. -/
def get_precision (ps : Precisions) (info : Nat) : Except ContractError Nat :=
  match List.lookup info ps with
  | some prec => .ok prec
  | none => .error .UnknownAsset

/-- Conversion of a raw integer amount to decimal form with the given
number of decimal places. -/
def to_decimal (amount : Nat) (precision : Nat) : Rat :=
  (amount : Rat) / ((10 : Rat) ^ precision)

/-- Mirrors Asset::to_decimal_asset: keep the identifier, convert the
amount. -/
def to_decimal_asset (a : Asset) (precision : Nat) : DecimalAsset :=
  ⟨a.info, to_decimal a.amount precision⟩

/-- Mirrors utils.rs query_contract_balances (lines 18-34): convert each
queried pool balance using that asset's configured precision, collecting
into a single result; the first lookup failure aborts the whole call. -/
def query_contract_balances : List Asset → Precisions →
    Except ContractError (List DecimalAsset)
  | [], _ => .ok []
  | a :: rest, ps =>
    match get_precision ps a.info, query_contract_balances rest ps with
    | .ok prec, .ok tail => .ok (to_decimal_asset a prec :: tail)
    | .error e, _ => .error e
    | .ok _, .error e => .error e

/-- Mirrors utils.rs lines 48-56: convert explicitly supplied sub-account
deposits to decimal amounts using each deposit asset's own precision. -/
def convert_deposits : List Asset → Precisions → Except ContractError (List Rat)
  | [], _ => .ok []
  | a :: rest, ps =>
    match get_precision ps a.info, convert_deposits rest ps with
    | .ok prec, .ok tail => .ok (to_decimal a.amount prec :: tail)
    | .error e, _ => .error e
    | .ok _, .error e => .error e

/-- Mirrors utils.rs lines 70-76: iter_mut().zip(ob_deposits) followed by
amount += deposit.  Pairing is positional; entries of the left vector
beyond the zip are kept unchanged, so the output length always equals the
on-chain vector's length. -/
def merge_deposits : List DecimalAsset → List Rat → List DecimalAsset
  | [], _ => []
  | assets, [] => assets
  | a :: assets, d :: deposits => ⟨a.info, a.amount + d⟩ :: merge_deposits assets deposits

/-- Mirrors utils.rs query_pools (lines 37-79): merge on-chain balances
with sub-account deposits (supplied, or else the venue query's result)
into one decimal reserve vector. -/
def query_pools (pools : List Asset) (ps : Precisions)
    (subacc_deposits : Option (List Asset)) (queried_deposits : List Rat) :
    Except ContractError (List DecimalAsset) :=
  match query_contract_balances pools ps with
  | .error e => .error e
  | .ok contract_assets =>
    match (match subacc_deposits with
           | some obd => convert_deposits obd ps
           | none => .ok queried_deposits) with
    | .error e => .error e
    | .ok ob_deposits => .ok (merge_deposits contract_assets ob_deposits)

/-
Helper lemmas.
-/

theorem getD_some_lt_length {α : Type} {l : List (Option α)} {i : Nat} {x : α}
    (h : l.getD i none = some x) : i < l.length := by
  by_contra hlt
  push_neg at hlt
  rw [List.getD_eq_default _ _ hlt] at h
  cases h

theorem read_last_some_lt {b : BufferState} {x : Observation}
    (h : b.read_last = some x) : b.head < b.slots.length :=
  getD_some_lt_length h

theorem read_last_instant_push (b : BufferState) (o : Observation)
    (hlen : b.WF) (hcap : b.capacity ≠ 0) :
    (b.instant_push o).read_last = some o := by
  have hlt : (b.head + 1) % b.capacity < b.slots.length := by
    rw [hlen]; exact Nat.mod_lt _ (Nat.pos_of_ne_zero hcap)
  unfold BufferState.instant_push BufferState.read_last
  simp only
  rw [List.getD_eq_getElem?_getD, List.getElem?_set_self hlt]
  rfl

theorem instant_push_WF {b : BufferState} (o : Observation) (hlen : b.WF) :
    (b.instant_push o).WF := by
  unfold BufferState.instant_push BufferState.WF at *
  simpa using hlen

theorem priceFromAmounts_ok {base quote : Nat} {p : Rat}
    (h : priceFromAmounts base quote = .ok p) :
    quote ≠ 0 ∧ p = (base : Rat) / (quote : Rat) := by
  unfold priceFromAmounts at h
  split at h
  · cases h
  · next hq => injection h with h; exact ⟨hq, h.symm⟩

theorem priceFromAmounts_ne_zero {base quote : Nat} (hq : quote ≠ 0) :
    priceFromAmounts base quote = .ok ((base : Rat) / (quote : Rat)) := by
  unfold priceFromAmounts
  rw [if_neg hq]

/-- Complete case analysis of a successful accumulation call: no precommit,
stale precommit skipped, append onto a non-empty buffer, seed of an empty
buffer, or same-block seed skipped. -/
theorem accumulate_ok_elim {s : ContractStorage} {t : Nat} {ob : OrderbookState}
    {s' : ContractStorage} {ob' : OrderbookState}
    (h : accumulate_swap_sizes s t ob = .ok (s', ob')) :
    (s.precommit = none ∧ s' = s ∧ ob' = ob) ∨
    (∃ pc p last_obs, s.precommit = some pc ∧
        priceFromAmounts pc.base_amount pc.quote_amount = .ok p ∧
        s.observations.read_last = some last_obs ∧
        ¬ last_obs.ts < pc.precommit_ts ∧ s' = s ∧ ob' = ob) ∨
    (∃ pc p last_obs nob, s.precommit = some pc ∧
        priceFromAmounts pc.base_amount pc.quote_amount = .ok p ∧
        s.observations.read_last = some last_obs ∧
        last_obs.ts < pc.precommit_ts ∧
        new_observation_for s.observations last_obs p pc.precommit_ts = .ok nob ∧
        s' = { s with observations := s.observations.instant_push nob } ∧
        ob' = gate_update s.observations ob) ∨
    (∃ pc p, s.precommit = some pc ∧
        priceFromAmounts pc.base_amount pc.quote_amount = .ok p ∧
        s.observations.read_last = none ∧
        pc.precommit_ts < t ∧
        s' = { s with observations :=
                 s.observations.instant_push ⟨pc.precommit_ts, p, p⟩ } ∧
        ob' = ob) ∨
    (∃ pc p, s.precommit = some pc ∧
        priceFromAmounts pc.base_amount pc.quote_amount = .ok p ∧
        s.observations.read_last = none ∧
        ¬ pc.precommit_ts < t ∧ s' = s ∧ ob' = ob) := by
  unfold accumulate_swap_sizes at h
  split at h
  · next hpc =>
    injection h with h
    injection h with h1 h2
    exact Or.inl ⟨hpc, h1.symm, h2.symm⟩
  · next pc hpc =>
    split at h
    · cases h
    · next p hp =>
      split at h
      · next last_obs hlast =>
        split at h
        · next hts =>
          split at h
          · cases h
          · next nob hnob =>
            injection h with h
            injection h with h1 h2
            exact Or.inr (Or.inr (Or.inl
              ⟨pc, p, last_obs, nob, hpc, hp, hlast, hts, hnob, h1.symm, h2.symm⟩))
        · next hts =>
          injection h with h
          injection h with h1 h2
          exact Or.inr (Or.inl ⟨pc, p, last_obs, hpc, hp, hlast, hts, h1.symm, h2.symm⟩)
      · next hlast =>
        split at h
        · next ht =>
          injection h with h
          injection h with h1 h2
          exact Or.inr (Or.inr (Or.inr (Or.inl
            ⟨pc, p, hpc, hp, hlast, ht, h1.symm, h2.symm⟩)))
        · next ht =>
          injection h with h
          injection h with h1 h2
          exact Or.inr (Or.inr (Or.inr (Or.inr
            ⟨pc, p, hpc, hp, hlast, ht, h1.symm, h2.symm⟩)))

/-- Forward evaluation: a stale precommit (last observation at least as
recent) is skipped, returning the state unchanged. -/
theorem accumulate_skip_eq {s : ContractStorage} {t : Nat} {ob : OrderbookState}
    {pc : PrecommitObservation} {last_obs : Observation}
    (hpc : s.precommit = some pc)
    (hlast : s.observations.read_last = some last_obs)
    (hts : ¬ last_obs.ts < pc.precommit_ts) (hq : pc.quote_amount ≠ 0) :
    accumulate_swap_sizes s t ob = .ok (s, ob) := by
  unfold accumulate_swap_sizes
  simp only [hpc, priceFromAmounts_ne_zero hq, hlast, if_neg hts]

/-- Forward evaluation: the append path onto a non-empty buffer. -/
theorem accumulate_append_eq {s : ContractStorage} {t : Nat} {ob : OrderbookState}
    {pc : PrecommitObservation} {last_obs nob : Observation}
    (hpc : s.precommit = some pc)
    (hlast : s.observations.read_last = some last_obs)
    (hts : last_obs.ts < pc.precommit_ts) (hq : pc.quote_amount ≠ 0)
    (hnob : new_observation_for s.observations last_obs
        ((pc.base_amount : Rat) / (pc.quote_amount : Rat)) pc.precommit_ts = .ok nob) :
    accumulate_swap_sizes s t ob =
      .ok ({ s with observations := s.observations.instant_push nob },
           gate_update s.observations ob) := by
  unfold accumulate_swap_sizes
  simp only [hpc, priceFromAmounts_ne_zero hq, hlast, if_pos hts, hnob]

/-- Forward evaluation: seeding an empty buffer once a block has elapsed. -/
theorem accumulate_seed_eq {s : ContractStorage} {t : Nat} {ob : OrderbookState}
    {pc : PrecommitObservation}
    (hpc : s.precommit = some pc)
    (hempty : s.observations.read_last = none)
    (hq : pc.quote_amount ≠ 0) (ht : pc.precommit_ts < t) :
    accumulate_swap_sizes s t ob =
      .ok ({ s with observations := (s.observations.instant_push
               ⟨pc.precommit_ts, (pc.base_amount : Rat) / (pc.quote_amount : Rat),
                (pc.base_amount : Rat) / (pc.quote_amount : Rat)⟩) }, ob) := by
  unfold accumulate_swap_sizes
  simp only [hpc, priceFromAmounts_ne_zero hq, hempty, if_pos ht]

/-- Forward evaluation: an empty buffer is not seeded while the block time
has not passed the precommit timestamp. -/
theorem accumulate_seed_skip_eq {s : ContractStorage} {t : Nat} {ob : OrderbookState}
    {pc : PrecommitObservation}
    (hpc : s.precommit = some pc)
    (hempty : s.observations.read_last = none)
    (hq : pc.quote_amount ≠ 0) (ht : ¬ pc.precommit_ts < t) :
    accumulate_swap_sizes s t ob = .ok (s, ob) := by
  unfold accumulate_swap_sizes
  simp only [hpc, priceFromAmounts_ne_zero hq, hempty, if_neg ht]

theorem priceFromAmounts_zero {base quote : Nat} (hq : quote = 0) :
    priceFromAmounts base quote = .error .DivisionByZero := by
  unfold priceFromAmounts
  rw [if_pos hq]

theorem gate_update_ready_eq (b : BufferState) (ob : OrderbookState) :
    (gate_update b ob).ready =
      (ob.ready || decide (ob.min_trades_to_avg ≤ b.head + 1)) := by
  unfold gate_update OrderbookState.set_ready
  by_cases hr : ob.ready = false
  · by_cases hm : ob.min_trades_to_avg ≤ b.head + 1
    · rw [if_pos ⟨hr, hm⟩]; simp [hr, hm]
    · rw [if_neg (by intro hc; exact hm hc.2)]; simp [hr, hm]
  · rw [if_neg (by intro hc; exact hr hc.1)]
    simp only [Bool.not_eq_false] at hr
    simp [hr]

theorem accumulate_ready_mono {s : ContractStorage} {t : Nat}
    {ob : OrderbookState} {s' : ContractStorage} {ob' : OrderbookState}
    (h : accumulate_swap_sizes s t ob = .ok (s', ob'))
    (hr : ob.ready = true) : ob'.ready = true := by
  rcases accumulate_ok_elim h with
    ⟨_, _, rfl⟩ | ⟨_, _, _, _, _, _, _, _, rfl⟩ |
    ⟨_, _, _, _, _, _, _, _, _, _, rfl⟩ | ⟨_, _, _, _, _, _, _, rfl⟩ |
    ⟨_, _, _, _, _, _, _, rfl⟩
  · exact hr
  · exact hr
  · rw [gate_update_ready_eq, hr, Bool.true_or]
  · exact hr
  · exact hr

theorem accumulate_precommit_eq {s : ContractStorage} {t : Nat}
    {ob : OrderbookState} {s' : ContractStorage} {ob' : OrderbookState}
    (h : accumulate_swap_sizes s t ob = .ok (s', ob')) :
    s'.precommit = s.precommit := by
  rcases accumulate_ok_elim h with
    ⟨_, rfl, _⟩ | ⟨_, _, _, _, _, _, _, rfl, _⟩ |
    ⟨_, _, _, _, _, _, _, _, _, rfl, _⟩ | ⟨_, _, _, _, _, _, rfl, _⟩ |
    ⟨_, _, _, _, _, _, rfl, _⟩ <;> rfl

theorem new_observation_for_wrapped {b : BufferState} {last_obs : Observation}
    {p : Rat} {ts : Nat} {oldest : Observation}
    (hold : b.read_single (b.head + 1) = some oldest) (hcap : b.capacity ≠ 0) :
    new_observation_for b last_obs p ts =
      .ok ⟨ts, p, last_obs.price_sma + (p - oldest.price) / (b.capacity : Rat)⟩ := by
  unfold new_observation_for safe_sma_calculation
  simp only [hold, if_neg hcap]

theorem new_observation_for_not_full {b : BufferState} {last_obs : Observation}
    {p : Rat} {ts : Nat}
    (hnone : b.read_single (b.head + 1) = none) :
    new_observation_for b last_obs p ts =
      .ok ⟨ts, p, safe_sma_buffer_not_full last_obs.price_sma b.head p⟩ := by
  unfold new_observation_for
  simp only [hnone]

theorem new_observation_for_ts {b : BufferState} {last_obs : Observation}
    {p : Rat} {ts : Nat} {nob : Observation}
    (h : new_observation_for b last_obs p ts = .ok nob) :
    nob.ts = ts ∧ nob.price = p := by
  unfold new_observation_for at h
  split at h
  · split at h
    · injection h with h
      rw [← h]
      exact ⟨rfl, rfl⟩
    · cases h
  · injection h with h
    rw [← h]
    exact ⟨rfl, rfl⟩

theorem capacity_ne_zero_of_read_last {b : BufferState} {last_obs : Observation}
    (hlen : b.WF) (h : b.read_last = some last_obs) : b.capacity ≠ 0 := by
  have hlt := read_last_some_lt h
  rw [BufferState.WF] at hlen
  omega

theorem getD_none_mem {α : Type} {l : List (Option α)} {i : Nat} {x : α}
    (h : l.getD i none = some x) : some x ∈ l := by
  rw [List.getD_eq_getElem?_getD] at h
  cases hx : l[i]? with
  | none => rw [hx] at h; cases h
  | some o =>
    rw [hx] at h
    simp only [Option.getD_some] at h
    rw [h] at hx
    exact List.getElem?_mem hx

theorem read_last_mem {b : BufferState} {x : Observation}
    (h : b.read_last = some x) : some x ∈ b.slots :=
  getD_none_mem h

theorem read_single_mem {b : BufferState} {i : Nat} {x : Observation}
    (h : b.read_single i = some x) : some x ∈ b.slots :=
  getD_none_mem h

/-- Case analysis of a successfully built observation: either the buffer
has wrapped (slot after the head occupied, sliding-window update with
count = capacity) or not (cumulative-mean update with count = head). -/
theorem new_observation_for_ok_elim {b : BufferState} {last_obs : Observation}
    {p : Rat} {ts : Nat} {nob : Observation}
    (h : new_observation_for b last_obs p ts = .ok nob) :
    (∃ oldest, b.read_single (b.head + 1) = some oldest ∧ b.capacity ≠ 0 ∧
       nob = ⟨ts, p, last_obs.price_sma + (p - oldest.price) / (b.capacity : Rat)⟩) ∨
    (b.read_single (b.head + 1) = none ∧
       nob = ⟨ts, p, safe_sma_buffer_not_full last_obs.price_sma b.head p⟩) := by
  unfold new_observation_for at h
  split at h
  · next oldest hold =>
    split at h
    · next sma hsma =>
      injection h with h
      have hcap : b.capacity ≠ 0 := by
        intro hc
        unfold safe_sma_calculation at hsma
        rw [if_pos hc] at hsma
        cases hsma
      unfold safe_sma_calculation at hsma
      rw [if_neg hcap] at hsma
      injection hsma with hsma
      left
      exact ⟨oldest, hold, hcap, by rw [← h, ← hsma]⟩
    · cases h
  · next hnone =>
    injection h with h
    right
    exact ⟨hnone, h.symm⟩

theorem get_precision_error {ps : Precisions} {info : Nat} {e : ContractError}
    (h : get_precision ps info = .error e) : e = .UnknownAsset := by
  unfold get_precision at h
  split at h
  · cases h
  · injection h with h
    exact h.symm

theorem qcb_length {pools : List Asset} {ps : Precisions} {res : List DecimalAsset}
    (h : query_contract_balances pools ps = .ok res) :
    res.length = pools.length := by
  induction pools generalizing res with
  | nil =>
    unfold query_contract_balances at h
    injection h with h
    rw [← h]
    rfl
  | cons a rest ih =>
    unfold query_contract_balances at h
    split at h
    · next prec tail hprec htail =>
      injection h with h
      rw [← h]
      simp [ih htail]
    · cases h
    · cases h

theorem qcb_index {pools : List Asset} {ps : Precisions} {res : List DecimalAsset}
    (h : query_contract_balances pools ps = .ok res) :
    ∀ (i : Nat) (a : Asset), pools[i]? = some a →
      ∃ prec, get_precision ps a.info = .ok prec ∧
        res[i]? = some (to_decimal_asset a prec) := by
  induction pools generalizing res with
  | nil =>
    intro i a ha
    rw [List.getElem?_nil] at ha
    cases ha
  | cons b rest ih =>
    unfold query_contract_balances at h
    split at h
    · next prec tail hprec htail =>
      injection h with h
      intro i a ha
      cases i with
      | zero =>
        rw [List.getElem?_cons_zero] at ha
        injection ha with ha
        rw [← h, ← ha]
        exact ⟨prec, hprec, by rw [List.getElem?_cons_zero]⟩
      | succ n =>
        rw [List.getElem?_cons_succ] at ha
        obtain ⟨prec', hp', hr'⟩ := ih htail n a ha
        rw [← h]
        exact ⟨prec', hp', by rw [List.getElem?_cons_succ]; exact hr'⟩
    · cases h
    · cases h

theorem qcb_error {pools : List Asset} {ps : Precisions} {a : Asset}
    (ha : a ∈ pools) (hp : get_precision ps a.info = .error .UnknownAsset) :
    query_contract_balances pools ps = .error .UnknownAsset := by
  induction pools with
  | nil => cases ha
  | cons b rest ih =>
    rcases List.mem_cons.mp ha with rfl | ha'
    · unfold query_contract_balances
      split
      · next hprec _ => rw [hp] at hprec; cases hprec
      · next e hprec =>
        rw [hp] at hprec
        injection hprec with hprec
        rw [hprec]
      · next hprec _ => rw [hp] at hprec; cases hprec
    · unfold query_contract_balances
      split
      · next hprec htail => rw [ih ha'] at htail; cases htail
      · next e hprec => rw [get_precision_error hprec]
      · next e hprec htail =>
        rw [ih ha'] at htail
        injection htail with htail
        rw [← htail]

theorem convert_length {deps : List Asset} {ps : Precisions} {ds : List Rat}
    (h : convert_deposits deps ps = .ok ds) : ds.length = deps.length := by
  induction deps generalizing ds with
  | nil =>
    unfold convert_deposits at h
    injection h with h
    rw [← h]
    rfl
  | cons a rest ih =>
    unfold convert_deposits at h
    split at h
    · next prec tail hprec htail =>
      injection h with h
      rw [← h]
      simp [ih htail]
    · cases h
    · cases h

theorem convert_index {deps : List Asset} {ps : Precisions} {ds : List Rat}
    (h : convert_deposits deps ps = .ok ds) :
    ∀ (i : Nat) (d : Asset), deps[i]? = some d →
      ∃ prec, get_precision ps d.info = .ok prec ∧
        ds[i]? = some (to_decimal d.amount prec) := by
  induction deps generalizing ds with
  | nil =>
    intro i d hd
    rw [List.getElem?_nil] at hd
    cases hd
  | cons b rest ih =>
    unfold convert_deposits at h
    split at h
    · next prec tail hprec htail =>
      injection h with h
      intro i d hd
      cases i with
      | zero =>
        rw [List.getElem?_cons_zero] at hd
        injection hd with hd
        rw [← h, ← hd]
        exact ⟨prec, hprec, by rw [List.getElem?_cons_zero]⟩
      | succ n =>
        rw [List.getElem?_cons_succ] at hd
        obtain ⟨prec', hp', hr'⟩ := ih htail n d hd
        rw [← h]
        exact ⟨prec', hp', by rw [List.getElem?_cons_succ]; exact hr'⟩
    · cases h
    · cases h

theorem convert_zero {deps : List Asset} {ps : Precisions} {ds : List Rat}
    (h : convert_deposits deps ps = .ok ds) (h0 : ∀ d ∈ deps, d.amount = 0) :
    ∀ x ∈ ds, x = 0 := by
  induction deps generalizing ds with
  | nil =>
    unfold convert_deposits at h
    injection h with h
    rw [← h]
    intro x hx
    cases hx
  | cons a rest ih =>
    unfold convert_deposits at h
    split at h
    · next prec tail hprec htail =>
      injection h with h
      rw [← h]
      intro x hx
      rcases List.mem_cons.mp hx with rfl | hx'
      · unfold to_decimal
        rw [h0 a (List.mem_cons_self _ _)]
        simp
      · exact ih htail (fun d hd => h0 d (List.mem_cons_of_mem _ hd)) x hx'
    · cases h
    · cases h

theorem merge_length (assets : List DecimalAsset) (deps : List Rat) :
    (merge_deposits assets deps).length = assets.length := by
  induction assets generalizing deps with
  | nil => simp [merge_deposits]
  | cons a rest ih =>
    cases deps with
    | nil => simp [merge_deposits]
    | cons d ds => simp [merge_deposits, ih]

theorem merge_index {assets : List DecimalAsset} {deps : List Rat} :
    ∀ (i : Nat) (a : DecimalAsset) (d : Rat), assets[i]? = some a →
      deps[i]? = some d →
      (merge_deposits assets deps)[i]? = some ⟨a.info, a.amount + d⟩ := by
  induction assets generalizing deps with
  | nil =>
    intro i a d ha _
    rw [List.getElem?_nil] at ha
    cases ha
  | cons b rest ih =>
    intro i a d ha hd
    cases deps with
    | nil =>
      rw [List.getElem?_nil] at hd
      cases hd
    | cons e ds =>
      cases i with
      | zero =>
        rw [List.getElem?_cons_zero] at ha hd
        injection ha with ha
        injection hd with hd
        simp only [merge_deposits]
        rw [List.getElem?_cons_zero, ha, hd]
      | succ n =>
        rw [List.getElem?_cons_succ] at ha hd
        simp only [merge_deposits]
        rw [List.getElem?_cons_succ]
        exact ih n a d ha hd

theorem merge_zero {assets : List DecimalAsset} {deps : List Rat}
    (h0 : ∀ d ∈ deps, d = 0) : merge_deposits assets deps = assets := by
  induction assets generalizing deps with
  | nil => simp [merge_deposits]
  | cons a rest ih =>
    cases deps with
    | nil => simp [merge_deposits]
    | cons d ds =>
      simp only [merge_deposits]
      rw [h0 d (List.mem_cons_self _ _), add_zero,
        ih (fun x hx => h0 x (List.mem_cons_of_mem _ hx))]

/-
Claim theorems.
-/

/-- C10: the accumulation call never deletes or overwrites the precommit
slot — for every input state on which the call commits, the stored
PrecommitObservation is identical before and after, whether or not an
observation was appended; the at-most-once guarantee rests solely on the
timestamp comparison, not on consuming the slot. -/
theorem claim_precommit_frame (s : ContractStorage) (t : Nat)
    (ob : OrderbookState) (s' : ContractStorage) (ob' : OrderbookState)
    (h : accumulate_swap_sizes s t ob = .ok (s', ob')) :
    s'.precommit = s.precommit :=
  accumulate_precommit_eq h

/-- Witness for C10: a concrete appending call keeps the precommit slot
intact. -/
theorem claim_precommit_frame_witness :
    ∃ s' ob', accumulate_swap_sizes
        ⟨some ⟨1, 1, 5⟩, BufferState.init 3⟩ 6 ⟨2, false⟩ = .ok (s', ob') ∧
      s'.precommit = some ⟨1, 1, 5⟩ := by
  have h : accumulate_swap_sizes
      ⟨some ⟨1, 1, 5⟩, BufferState.init 3⟩ 6 ⟨2, false⟩ =
      .ok (⟨some ⟨1, 1, 5⟩, ⟨3, 1, [none, some ⟨5, 1, 1⟩, none]⟩⟩, ⟨2, false⟩) := by
    norm_num [accumulate_swap_sizes, priceFromAmounts, BufferState.init,
      BufferState.read_last, BufferState.instant_push, List.replicate]
  exact ⟨_, _, h, by
    rw [claim_precommit_frame ⟨some ⟨1, 1, 5⟩, BufferState.init 3⟩ 6 ⟨2, false⟩ _ _ h]⟩

/-- C8: the readiness flag is monotonic — starting from any state in which
ready is true, no sequence of further accumulation calls (with any
injected precommits, buffer states, and block times; failed calls commit
nothing) ever sets ready back to false. -/
theorem claim_ready_monotonic (s : ContractStorage) (ob : OrderbookState)
    (l : List (Option PrecommitObservation × Nat)) (h : ob.ready = true) :
    (run_accumulation s ob l).2.ready = true := by
  induction l generalizing s ob with
  | nil => exact h
  | cons inp rest ih =>
    unfold run_accumulation accumulate_step
    cases hacc : accumulate_swap_sizes { s with precommit := inp.1 } inp.2 ob with
    | ok r =>
      cases r with
      | mk s1 ob1 =>
        simp only [hacc]
        exact ih s1 ob1 (accumulate_ready_mono hacc h)
    | error e =>
      simp only [hacc]
      exact ih _ _ h

/-- Witness for C8: a concrete two-round run from a ready state stays
ready. -/
theorem claim_ready_monotonic_witness :
    (run_accumulation ⟨none, BufferState.init 2⟩ ⟨5, true⟩
      [(some ⟨4, 2, 7⟩, 9), (none, 10)]).2.ready = true :=
  claim_ready_monotonic ⟨none, BufferState.init 2⟩ ⟨5, true⟩
    [(some ⟨4, 2, 7⟩, 9), (none, 10)] rfl

/-- C4: for every stored precommit with quote_amount = 0, the accumulation
call fails with the division-by-zero error (an error result, never a
silent zero price); since an error carries no state in this embedding —
matching the transactional all-or-nothing execution — the buffer is left
exactly as before the call. -/
theorem claim_division_by_zero (s : ContractStorage) (t : Nat)
    (ob : OrderbookState) (pc : PrecommitObservation)
    (hpc : s.precommit = some pc) (hq : pc.quote_amount = 0) :
    accumulate_swap_sizes s t ob = .error .DivisionByZero := by
  unfold accumulate_swap_sizes
  simp only [hpc, priceFromAmounts_zero hq]

/-- Witness for C4: a concrete zero-quote precommit fails with the
division error. -/
theorem claim_division_by_zero_witness :
    accumulate_swap_sizes ⟨some ⟨1, 0, 5⟩, BufferState.init 3⟩ 7 ⟨10, false⟩ =
      .error .DivisionByZero :=
  claim_division_by_zero ⟨some ⟨1, 0, 5⟩, BufferState.init 3⟩ 7 ⟨10, false⟩
    ⟨1, 0, 5⟩ rfl rfl

/-- C3: accumulation is idempotent against an already-processed precommit.
First conjunct: whenever the buffer's last stored observation has a
timestamp not earlier than the precommit's, a committing call changes
neither the buffer (head and contents) nor the readiness flag (an error
commits nothing by the transactional model).  Second conjunct: calling
accumulation twice with no new precommit written between the calls
commits no change on the second call — in particular head() and the last
observation's timestamp are unchanged. -/
theorem claim_idempotent :
    (∀ (s : ContractStorage) (t : Nat) (ob : OrderbookState)
        (pc : PrecommitObservation) (last_obs : Observation)
        (s' : ContractStorage) (ob' : OrderbookState),
        s.precommit = some pc → s.observations.read_last = some last_obs →
        pc.precommit_ts ≤ last_obs.ts →
        accumulate_swap_sizes s t ob = .ok (s', ob') → s' = s ∧ ob' = ob) ∧
    (∀ (s : ContractStorage) (t t' : Nat) (ob : OrderbookState)
        (pc : PrecommitObservation) (last_obs : Observation)
        (s' : ContractStorage) (ob' : OrderbookState),
        s.observations.WF →
        s.precommit = some pc → s.observations.read_last = some last_obs →
        accumulate_swap_sizes s t ob = .ok (s', ob') →
        accumulate_swap_sizes s' t' ob' = .ok (s', ob')) := by
  constructor
  · intro s t ob pc last_obs s' ob' hpc hlast hts h
    rcases accumulate_ok_elim h with
      ⟨hn, rfl, rfl⟩ |
      ⟨pc₁, p₁, l₁, hpc₁, _, hlast₁, _, rfl, rfl⟩ |
      ⟨pc₁, p₁, l₁, nob₁, hpc₁, _, hlast₁, hts₁, _, _, _⟩ |
      ⟨pc₁, p₁, hpc₁, _, hlast₁, _, _, _⟩ |
      ⟨pc₁, p₁, hpc₁, _, hlast₁, _, _, _⟩
    · rw [hpc] at hn; cases hn
    · exact ⟨rfl, rfl⟩
    · rw [hpc] at hpc₁; injection hpc₁ with hpc₁
      rw [hlast] at hlast₁; injection hlast₁ with hlast₁
      rw [← hpc₁, ← hlast₁] at hts₁
      omega
    · rw [hlast] at hlast₁; cases hlast₁
    · rw [hlast] at hlast₁; cases hlast₁
  · intro s t t' ob pc last_obs s' ob' hwf hpc hlast h
    rcases accumulate_ok_elim h with
      ⟨hn, rfl, rfl⟩ |
      ⟨pc₁, p₁, l₁, hpc₁, hp₁, hlast₁, hts₁, rfl, rfl⟩ |
      ⟨pc₁, p₁, l₁, nob₁, hpc₁, hp₁, hlast₁, hts₁, hnob₁, rfl, rfl⟩ |
      ⟨pc₁, p₁, hpc₁, _, hlast₁, _, _, _⟩ |
      ⟨pc₁, p₁, hpc₁, _, hlast₁, _, _, _⟩
    · rw [hpc] at hn; cases hn
    · exact accumulate_skip_eq hpc₁ hlast₁ hts₁ (priceFromAmounts_ok hp₁).1
    · have hcap : s.observations.capacity ≠ 0 :=
        capacity_ne_zero_of_read_last hwf hlast₁
      have hlast' : (s.observations.instant_push nob₁).read_last = some nob₁ :=
        read_last_instant_push _ _ hwf hcap
      have hts' := (new_observation_for_ts hnob₁).1
      exact accumulate_skip_eq hpc₁ hlast' (by rw [hts']; omega)
        (priceFromAmounts_ok hp₁).1
    · rw [hlast] at hlast₁; cases hlast₁
    · rw [hlast] at hlast₁; cases hlast₁

/-- Witness for C3: a concrete stale precommit (timestamp equal to the
last observation's) is skipped without any change. -/
theorem claim_idempotent_witness :
    ∃ s' ob', accumulate_swap_sizes
        ⟨some ⟨1, 1, 5⟩, ⟨3, 1, [none, some ⟨5, 1, 1⟩, none]⟩⟩ 9 ⟨2, false⟩ =
        .ok (s', ob') ∧
      s' = ⟨some ⟨1, 1, 5⟩, ⟨3, 1, [none, some ⟨5, 1, 1⟩, none]⟩⟩ ∧
      ob' = ⟨2, false⟩ := by
  have h : accumulate_swap_sizes
      ⟨some ⟨1, 1, 5⟩, ⟨3, 1, [none, some ⟨5, 1, 1⟩, none]⟩⟩ 9 ⟨2, false⟩ =
      .ok (⟨some ⟨1, 1, 5⟩, ⟨3, 1, [none, some ⟨5, 1, 1⟩, none]⟩⟩, ⟨2, false⟩) := by
    norm_num [accumulate_swap_sizes, priceFromAmounts, BufferState.read_last]
  exact ⟨_, _, h, claim_idempotent.1 _ 9 _ ⟨1, 1, 5⟩ ⟨5, 1, 1⟩ _ _ rfl rfl
    (by norm_num) h⟩

/-- C1: for every accumulation call where the buffer has wrapped (an
observation exists in the slot that will be evicted next, at head+1 mod
capacity), the new observation's price_sma equals
last_sma + (observed_price - oldest_price) / count, where count is the
buffer capacity and oldest_price is the price of the oldest live entry —
for every head position, including head = capacity - 1 (read_single
interprets its index modulo the capacity). -/
theorem claim_wrapped_sma (s : ContractStorage) (t : Nat) (ob : OrderbookState)
    (pc : PrecommitObservation) (last_obs oldest : Observation)
    (s' : ContractStorage) (ob' : OrderbookState)
    (hwf : s.observations.WF)
    (hpc : s.precommit = some pc)
    (hlast : s.observations.read_last = some last_obs)
    (hts : last_obs.ts < pc.precommit_ts)
    (hold : s.observations.read_single (s.observations.head + 1) = some oldest)
    (h : accumulate_swap_sizes s t ob = .ok (s', ob')) :
    ∃ p, priceFromAmounts pc.base_amount pc.quote_amount = .ok p ∧
      s'.observations.head = (s.observations.head + 1) % s.observations.capacity ∧
      s'.observations.read_last =
        some ⟨pc.precommit_ts, p,
              last_obs.price_sma +
                (p - oldest.price) / (s.observations.capacity : Rat)⟩ := by
  rcases accumulate_ok_elim h with
    ⟨hn, _, _⟩ |
    ⟨pc₁, p₁, l₁, hpc₁, hp₁, hlast₁, hts₁, _, _⟩ |
    ⟨pc₁, p₁, l₁, nob₁, hpc₁, hp₁, hlast₁, hts₁, hnob₁, rfl, rfl⟩ |
    ⟨pc₁, p₁, hpc₁, hp₁, hlast₁, _, _, _⟩ |
    ⟨pc₁, p₁, hpc₁, hp₁, hlast₁, _, _, _⟩
  · rw [hpc] at hn; cases hn
  · rw [hpc] at hpc₁; injection hpc₁ with e1
    rw [hlast] at hlast₁; injection hlast₁ with e2
    rw [← e1, ← e2] at hts₁
    exact absurd hts hts₁
  · rw [hpc] at hpc₁; injection hpc₁ with e1
    rw [hlast] at hlast₁; injection hlast₁ with e2
    subst e1; subst e2
    have hcap : s.observations.capacity ≠ 0 :=
      capacity_ne_zero_of_read_last hwf hlast
    rw [new_observation_for_wrapped hold hcap] at hnob₁
    injection hnob₁ with e3
    refine ⟨p₁, hp₁, rfl, ?_⟩
    show (s.observations.instant_push nob₁).read_last = _
    rw [read_last_instant_push _ _ hwf hcap, ← e3]
  · rw [hlast] at hlast₁; cases hlast₁
  · rw [hlast] at hlast₁; cases hlast₁

/-- Witness for C1: a wrapped capacity-3 buffer with head at
capacity - 1 = 2; the slot after the head wraps to index 0, the oldest
live entry (price 2, sma 2), and the appended observation carries
sma = 2 + (6 - 2)/3. -/
theorem claim_wrapped_sma_witness :
    ∃ s' ob',
      accumulate_swap_sizes
        ⟨some ⟨6, 1, 7⟩, ⟨3, 2, [some ⟨1, 2, 2⟩, some ⟨2, 2, 2⟩, some ⟨3, 2, 2⟩]⟩⟩
        9 ⟨5, false⟩ = .ok (s', ob') ∧
      ∃ p, priceFromAmounts 6 1 = .ok p ∧
        s'.observations.head = (2 + 1) % 3 ∧
        s'.observations.read_last =
          some ⟨7, p, 2 + (p - 2) / ((3 : Nat) : Rat)⟩ := by
  have hold : (⟨3, 2, [some ⟨1, 2, 2⟩, some ⟨2, 2, 2⟩, some ⟨3, 2, 2⟩]⟩ :
      BufferState).read_single (2 + 1) = some ⟨1, 2, 2⟩ := rfl
  have h : accumulate_swap_sizes
      ⟨some ⟨6, 1, 7⟩, ⟨3, 2, [some ⟨1, 2, 2⟩, some ⟨2, 2, 2⟩, some ⟨3, 2, 2⟩]⟩⟩
      9 ⟨5, false⟩ =
      .ok (⟨some ⟨6, 1, 7⟩,
            ⟨3, 0, [some ⟨7, 6, 10 / 3⟩, some ⟨2, 2, 2⟩, some ⟨3, 2, 2⟩]⟩⟩,
           ⟨5, false⟩) := by
    norm_num [accumulate_swap_sizes, priceFromAmounts, BufferState.read_last,
      BufferState.read_single, new_observation_for, safe_sma_calculation,
      gate_update, BufferState.instant_push]
  refine ⟨_, _, h, claim_wrapped_sma _ 9 _ ⟨6, 1, 7⟩ ⟨3, 2, 2⟩ ⟨1, 2, 2⟩ _ _
    ?_ ?_ ?_ ?_ hold h⟩
  · rfl
  · rfl
  · rfl
  · decide

/-- Counterexample to C7 as stated: with an empty buffer, a precommit with
quote_amount = 0 and block time 5 not greater than the precommit
timestamp 5, the call raises the division error — the claim's clause
"when current_block_time <= precommit timestamp, nothing is appended and
no error is raised" fails, because the price ratio is computed before the
time guard is consulted. -/
theorem claim_seed_guard_cex :
    (BufferState.init 3).read_last = none ∧
    accumulate_swap_sizes ⟨some ⟨1, 0, 5⟩, BufferState.init 3⟩ 5 ⟨10, false⟩ =
      .error .DivisionByZero := by
  constructor
  · rfl
  · unfold accumulate_swap_sizes
    simp only [priceFromAmounts_zero rfl]

/-- C7 amended: for every accumulation call on an empty buffer with a
precommit whose quote_amount is nonzero, an observation is appended iff
the block time strictly exceeds the precommit timestamp, the seed
observation's price_sma equals its observed price, and nothing changes
(with no error) otherwise; a zero quote_amount instead fails with the
division error regardless of the time guard. -/
theorem claim_seed_guard_amended (s : ContractStorage) (t : Nat)
    (ob : OrderbookState) (pc : PrecommitObservation)
    (hwf : s.observations.WF) (hcap : s.observations.capacity ≠ 0)
    (hpc : s.precommit = some pc)
    (hempty : s.observations.read_last = none) :
    (pc.quote_amount ≠ 0 → pc.precommit_ts < t →
      accumulate_swap_sizes s t ob =
        .ok ({ s with observations := (s.observations.instant_push
                 ⟨pc.precommit_ts, (pc.base_amount : Rat) / (pc.quote_amount : Rat),
                  (pc.base_amount : Rat) / (pc.quote_amount : Rat)⟩) }, ob) ∧
      (s.observations.instant_push
          ⟨pc.precommit_ts, (pc.base_amount : Rat) / (pc.quote_amount : Rat),
           (pc.base_amount : Rat) / (pc.quote_amount : Rat)⟩).read_last =
        some ⟨pc.precommit_ts, (pc.base_amount : Rat) / (pc.quote_amount : Rat),
              (pc.base_amount : Rat) / (pc.quote_amount : Rat)⟩) ∧
    (pc.quote_amount ≠ 0 → ¬ pc.precommit_ts < t →
      accumulate_swap_sizes s t ob = .ok (s, ob)) ∧
    (pc.quote_amount = 0 →
      accumulate_swap_sizes s t ob = .error .DivisionByZero) := by
  refine ⟨?_, ?_, ?_⟩
  · intro hq ht
    exact ⟨accumulate_seed_eq hpc hempty hq ht,
           read_last_instant_push _ _ hwf hcap⟩
  · intro hq ht
    exact accumulate_seed_skip_eq hpc hempty hq ht
  · intro hq
    unfold accumulate_swap_sizes
    simp only [hpc, priceFromAmounts_zero hq]

/-- Witness for C7 (amended): a concrete empty capacity-3 buffer is seeded
one block after the precommit, with price_sma equal to the observed
price 4/2. -/
theorem claim_seed_guard_amended_witness :
    accumulate_swap_sizes ⟨some ⟨4, 2, 5⟩, BufferState.init 3⟩ 6 ⟨10, false⟩ =
      .ok (⟨some ⟨4, 2, 5⟩, (BufferState.init 3).instant_push
             ⟨5, ((4 : Nat) : Rat) / ((2 : Nat) : Rat),
              ((4 : Nat) : Rat) / ((2 : Nat) : Rat)⟩⟩, ⟨10, false⟩) ∧
    ((BufferState.init 3).instant_push
        ⟨5, ((4 : Nat) : Rat) / ((2 : Nat) : Rat),
         ((4 : Nat) : Rat) / ((2 : Nat) : Rat)⟩).read_last =
      some ⟨5, ((4 : Nat) : Rat) / ((2 : Nat) : Rat),
            ((4 : Nat) : Rat) / ((2 : Nat) : Rat)⟩ :=
  (claim_seed_guard_amended ⟨some ⟨4, 2, 5⟩, BufferState.init 3⟩ 6 ⟨10, false⟩
    ⟨4, 2, 5⟩ rfl (by decide) rfl rfl).1 (by decide) (by decide)

/-- Counterexample to C2 as stated: with min_trades_to_avg = 1 and an
empty capacity-3 buffer, the seeded first observation makes the number of
observations present equal to min_trades_to_avg, yet the readiness flag
stays false — the gate check only runs on the non-empty-buffer append
path. -/
theorem claim_gate_open_cex :
    accumulate_swap_sizes ⟨some ⟨1, 1, 5⟩, BufferState.init 3⟩ 6 ⟨1, false⟩ =
      .ok (⟨some ⟨1, 1, 5⟩, ⟨3, 1, [none, some ⟨5, 1, 1⟩, none]⟩⟩, ⟨1, false⟩) ∧
    (⟨3, 1, [none, some ⟨5, 1, 1⟩, none]⟩ : BufferState).countFilled = 1 ∧
    (⟨1, false⟩ : OrderbookState).min_trades_to_avg ≤ 1 ∧
    (⟨1, false⟩ : OrderbookState).ready = false := by
  refine ⟨?_, by decide, by decide, rfl⟩
  norm_num [accumulate_swap_sizes, priceFromAmounts, BufferState.init,
    BufferState.read_last, BufferState.instant_push, List.replicate]

/-- C2 amended: the readiness check runs only when appending onto a
non-empty buffer; there the gate ends open iff it was already open or the
pre-push head index plus one (the number of observations present after
the append, as long as the buffer has not wrapped) reaches
min_trades_to_avg.  A seed append into an empty buffer never touches the
gate. -/
theorem claim_gate_open_amended :
    (∀ (s : ContractStorage) (t : Nat) (ob : OrderbookState)
        (pc : PrecommitObservation) (last_obs : Observation)
        (s' : ContractStorage) (ob' : OrderbookState),
        s.precommit = some pc → s.observations.read_last = some last_obs →
        last_obs.ts < pc.precommit_ts →
        accumulate_swap_sizes s t ob = .ok (s', ob') →
        (ob'.ready = true ↔
          (ob.ready = true ∨ ob.min_trades_to_avg ≤ s.observations.head + 1))) ∧
    (∀ (s : ContractStorage) (t : Nat) (ob : OrderbookState)
        (pc : PrecommitObservation) (s' : ContractStorage) (ob' : OrderbookState),
        s.precommit = some pc → s.observations.read_last = none →
        accumulate_swap_sizes s t ob = .ok (s', ob') → ob' = ob) := by
  constructor
  · intro s t ob pc last_obs s' ob' hpc hlast hts h
    rcases accumulate_ok_elim h with
      ⟨hn, _, _⟩ |
      ⟨pc₁, p₁, l₁, hpc₁, hp₁, hlast₁, hts₁, _, rfl⟩ |
      ⟨pc₁, p₁, l₁, nob₁, hpc₁, hp₁, hlast₁, hts₁, hnob₁, _, rfl⟩ |
      ⟨pc₁, p₁, hpc₁, hp₁, hlast₁, _, _, _⟩ |
      ⟨pc₁, p₁, hpc₁, hp₁, hlast₁, _, _, _⟩
    · rw [hpc] at hn; cases hn
    · rw [hpc] at hpc₁; injection hpc₁ with e1
      rw [hlast] at hlast₁; injection hlast₁ with e2
      rw [← e1, ← e2] at hts₁
      exact absurd hts hts₁
    · rw [gate_update_ready_eq]
      constructor
      · intro hor
        rcases Bool.or_eq_true_iff.mp hor with hr | hd
        · exact Or.inl hr
        · exact Or.inr (of_decide_eq_true hd)
      · intro hor
        rcases hor with hr | hd
        · rw [hr, Bool.true_or]
        · rw [decide_eq_true hd, Bool.or_true]
    · rw [hlast] at hlast₁; cases hlast₁
    · rw [hlast] at hlast₁; cases hlast₁
  · intro s t ob pc s' ob' hpc hempty h
    rcases accumulate_ok_elim h with
      ⟨hn, _, rfl⟩ |
      ⟨pc₁, p₁, l₁, hpc₁, hp₁, hlast₁, hts₁, _, rfl⟩ |
      ⟨pc₁, p₁, l₁, nob₁, hpc₁, hp₁, hlast₁, hts₁, hnob₁, _, rfl⟩ |
      ⟨pc₁, p₁, hpc₁, hp₁, hlast₁, _, _, rfl⟩ |
      ⟨pc₁, p₁, hpc₁, hp₁, hlast₁, _, _, rfl⟩
    · rfl
    · rfl
    · rw [hempty] at hlast₁; cases hlast₁
    · rfl
    · rfl

/-- Witness for C2 (amended): appending onto a full capacity-3 buffer with
min_trades_to_avg = 3 opens the gate (head 2, so head + 1 = 3 reaches the
threshold). -/
theorem claim_gate_open_amended_witness :
    ∃ s' ob',
      accumulate_swap_sizes
        ⟨some ⟨6, 1, 7⟩, ⟨3, 2, [some ⟨1, 2, 2⟩, some ⟨2, 2, 2⟩, some ⟨3, 2, 2⟩]⟩⟩
        9 ⟨3, false⟩ = .ok (s', ob') ∧ ob'.ready = true := by
  have h : accumulate_swap_sizes
      ⟨some ⟨6, 1, 7⟩, ⟨3, 2, [some ⟨1, 2, 2⟩, some ⟨2, 2, 2⟩, some ⟨3, 2, 2⟩]⟩⟩
      9 ⟨3, false⟩ =
      .ok (⟨some ⟨6, 1, 7⟩,
            ⟨3, 0, [some ⟨7, 6, 10 / 3⟩, some ⟨2, 2, 2⟩, some ⟨3, 2, 2⟩]⟩⟩,
           ⟨3, true⟩) := by
    norm_num [accumulate_swap_sizes, priceFromAmounts, BufferState.read_last,
      BufferState.read_single, new_observation_for, safe_sma_calculation,
      gate_update, OrderbookState.set_ready, BufferState.instant_push]
  refine ⟨_, _, h, (claim_gate_open_amended.1 _ 9 _ ⟨6, 1, 7⟩ ⟨3, 2, 2⟩ _ _
    ?_ ?_ ?_ h).mpr (Or.inr ?_)⟩
  · rfl
  · rfl
  · decide
  · decide

/-- C6: if every observation stored in the buffer carries price p and
price_sma p, a successful accumulation of another observation with
observed price p keeps that invariant — so the price_sma recorded after
each step of a constant-price sequence equals p (first conjunct; the
read_last consequence is included).  Second conjunct: in the
not-yet-wrapped case the appended observation's sma follows the
cumulative-mean update last_sma + (observed - last_sma) / (count + 1),
where count (the pre-append head index) equals the number of valid
entries before the append. -/
theorem claim_const_price_sma :
    (∀ (s : ContractStorage) (t : Nat) (ob : OrderbookState)
        (pc : PrecommitObservation) (p : Rat)
        (s' : ContractStorage) (ob' : OrderbookState),
        (∀ o ∈ s.observations.slots, ∀ x, o = some x →
          x.price = p ∧ x.price_sma = p) →
        s.precommit = some pc →
        priceFromAmounts pc.base_amount pc.quote_amount = .ok p →
        accumulate_swap_sizes s t ob = .ok (s', ob') →
        (∀ o ∈ s'.observations.slots, ∀ x, o = some x →
          x.price = p ∧ x.price_sma = p) ∧
        (∀ last', s'.observations.read_last = some last' →
          last'.price_sma = p)) ∧
    (∀ (s : ContractStorage) (t : Nat) (ob : OrderbookState)
        (pc : PrecommitObservation) (p : Rat) (last_obs : Observation)
        (s' : ContractStorage) (ob' : OrderbookState),
        s.observations.WF →
        s.observations.countFilled = s.observations.head →
        s.precommit = some pc →
        priceFromAmounts pc.base_amount pc.quote_amount = .ok p →
        s.observations.read_last = some last_obs →
        last_obs.ts < pc.precommit_ts →
        s.observations.read_single (s.observations.head + 1) = none →
        accumulate_swap_sizes s t ob = .ok (s', ob') →
        s'.observations.read_last = some
          ⟨pc.precommit_ts, p,
           last_obs.price_sma + (p - last_obs.price_sma) /
             ((s.observations.countFilled : Rat) + 1)⟩) := by
  constructor
  · intro s t ob pc p s' ob' hinv hpc hp h
    suffices hinv' : ∀ o ∈ s'.observations.slots, ∀ x, o = some x →
        x.price = p ∧ x.price_sma = p by
      exact ⟨hinv', fun last' hl => (hinv' _ (read_last_mem hl) _ rfl).2⟩
    rcases accumulate_ok_elim h with
      ⟨hn, rfl, _⟩ |
      ⟨pc₁, p₁, l₁, hpc₁, hp₁, hlast₁, hts₁, rfl, _⟩ |
      ⟨pc₁, p₁, l₁, nob₁, hpc₁, hp₁, hlast₁, hts₁, hnob₁, rfl, _⟩ |
      ⟨pc₁, p₁, hpc₁, hp₁, hlast₁, ht₁, rfl, _⟩ |
      ⟨pc₁, p₁, hpc₁, hp₁, hlast₁, ht₁, rfl, _⟩
    · exact hinv
    · exact hinv
    · -- append path: the new observation also carries price p and sma p
      rw [hpc] at hpc₁; injection hpc₁ with e1
      rw [← e1] at hp₁
      rw [hp] at hp₁; injection hp₁ with e2
      subst e2
      have hnew : nob₁.price = p ∧ nob₁.price_sma = p := by
        rcases new_observation_for_ok_elim hnob₁ with
          ⟨oldest, hold, hcap, rfl⟩ | ⟨hnone, rfl⟩
        · have hop : oldest.price = p :=
            (hinv _ (read_single_mem hold) _ rfl).1
          have hlp : l₁.price_sma = p :=
            (hinv _ (read_last_mem hlast₁) _ rfl).2
          refine ⟨rfl, ?_⟩
          show l₁.price_sma + (p - oldest.price) / _ = p
          rw [hop, hlp, sub_self, zero_div, add_zero]
        · have hlp : l₁.price_sma = p :=
            (hinv _ (read_last_mem hlast₁) _ rfl).2
          refine ⟨rfl, ?_⟩
          show safe_sma_buffer_not_full l₁.price_sma _ p = p
          unfold safe_sma_buffer_not_full
          rw [hlp, sub_self, zero_div, add_zero]
      intro o ho x hx
      rcases List.mem_or_eq_of_mem_set ho with ho' | rfl
      · exact hinv o ho' x hx
      · injection hx with hx
        rw [← hx]
        exact hnew
    · -- seed path: the seed observation is priced p with sma p
      rw [hpc] at hpc₁; injection hpc₁ with e1
      rw [← e1] at hp₁
      rw [hp] at hp₁; injection hp₁ with e2
      subst e2
      intro o ho x hx
      rcases List.mem_or_eq_of_mem_set ho with ho' | rfl
      · exact hinv o ho' x hx
      · injection hx with hx
        rw [← hx]
        exact ⟨rfl, rfl⟩
    · exact hinv
  · intro s t ob pc p last_obs s' ob' hwf hcount hpc hp hlast hts hsingle h
    rcases accumulate_ok_elim h with
      ⟨hn, _, _⟩ |
      ⟨pc₁, p₁, l₁, hpc₁, hp₁, hlast₁, hts₁, _, _⟩ |
      ⟨pc₁, p₁, l₁, nob₁, hpc₁, hp₁, hlast₁, hts₁, hnob₁, rfl, _⟩ |
      ⟨pc₁, p₁, hpc₁, hp₁, hlast₁, _, _, _⟩ |
      ⟨pc₁, p₁, hpc₁, hp₁, hlast₁, _, _, _⟩
    · rw [hpc] at hn; cases hn
    · rw [hpc] at hpc₁; injection hpc₁ with e1
      rw [hlast] at hlast₁; injection hlast₁ with e2
      rw [← e1, ← e2] at hts₁
      exact absurd hts hts₁
    · rw [hpc] at hpc₁; injection hpc₁ with e1
      rw [hlast] at hlast₁; injection hlast₁ with e2
      subst e1; subst e2
      rw [hp] at hp₁; injection hp₁ with e3
      subst e3
      rw [new_observation_for_not_full hsingle] at hnob₁
      injection hnob₁ with e4
      have hcap : s.observations.capacity ≠ 0 :=
        capacity_ne_zero_of_read_last hwf hlast
      show (s.observations.instant_push nob₁).read_last = _
      rw [read_last_instant_push _ _ hwf hcap, ← e4]
      unfold safe_sma_buffer_not_full
      rw [hcount]
    · rw [hlast] at hlast₁; cases hlast₁
    · rw [hlast] at hlast₁; cases hlast₁

/-- Witness for C6: a capacity-3 buffer holding two observations (head 2,
count 2, not yet wrapped) accumulates a precommit of price 6/1; the new
sma is last_sma + (p - last_sma)/(2 + 1). -/
theorem claim_const_price_sma_witness :
    ∃ s' ob',
      accumulate_swap_sizes
        ⟨some ⟨6, 1, 7⟩, ⟨3, 2, [none, some ⟨1, 2, 2⟩, some ⟨2, 2, 2⟩]⟩⟩
        9 ⟨5, false⟩ = .ok (s', ob') ∧
      s'.observations.read_last =
        some ⟨7, ((6 : Nat) : Rat) / ((1 : Nat) : Rat),
              2 + (((6 : Nat) : Rat) / ((1 : Nat) : Rat) - 2) /
                (((2 : Nat) : Rat) + 1)⟩ := by
  have h : accumulate_swap_sizes
      ⟨some ⟨6, 1, 7⟩, ⟨3, 2, [none, some ⟨1, 2, 2⟩, some ⟨2, 2, 2⟩]⟩⟩
      9 ⟨5, false⟩ =
      .ok (⟨some ⟨6, 1, 7⟩,
            ⟨3, 0, [some ⟨7, 6, 10 / 3⟩, some ⟨1, 2, 2⟩, some ⟨2, 2, 2⟩]⟩⟩,
           ⟨5, false⟩) := by
    norm_num [accumulate_swap_sizes, priceFromAmounts, BufferState.read_last,
      BufferState.read_single, new_observation_for, safe_sma_buffer_not_full,
      gate_update, BufferState.instant_push]
  refine ⟨_, _, h, claim_const_price_sma.2 _ 9 _ ⟨6, 1, 7⟩
    (((6 : Nat) : Rat) / ((1 : Nat) : Rat)) ⟨2, 2, 2⟩ _ _
    ?_ ?_ ?_ ?_ ?_ ?_ ?_ h⟩
  · rfl
  · rfl
  · rfl
  · rfl
  · rfl
  · decide
  · rfl

/-- C5: for every configured asset list of length k and every valid pair
of on-chain and (explicitly supplied) off-chain balance inputs (one
off-chain entry per configured asset), balance reconciliation returns a
vector of exactly k decimal amounts in the same index order, with
merged[i] = decimal(on_chain[i], precision[i]) + decimal(off_chain[i],
precision[i]); when every off-chain balance is zero, the result equals
the on-chain balances alone. -/
theorem claim_reserve_alignment (pools deps : List Asset) (ps : Precisions)
    (res : List DecimalAsset)
    (hlen : deps.length = pools.length)
    (h : query_pools pools ps (some deps) [] = .ok res) :
    res.length = pools.length ∧
    (∀ (i : Nat) (a d : Asset), pools[i]? = some a → deps[i]? = some d →
      ∃ pi qi, get_precision ps a.info = .ok pi ∧
        get_precision ps d.info = .ok qi ∧
        res[i]? = some ⟨a.info, to_decimal a.amount pi + to_decimal d.amount qi⟩) ∧
    ((∀ d ∈ deps, d.amount = 0) → query_contract_balances pools ps = .ok res) := by
  unfold query_pools at h
  simp only at h
  split at h
  · cases h
  · next ca hca =>
    split at h
    · cases h
    · next ds hds =>
      injection h with h
      refine ⟨?_, ?_, ?_⟩
      · rw [← h, merge_length, qcb_length hca]
      · intro i a d ha hd
        obtain ⟨pi, hpi, hca_i⟩ := qcb_index hca i a ha
        obtain ⟨qi, hqi, hds_i⟩ := convert_index hds i d hd
        refine ⟨pi, qi, hpi, hqi, ?_⟩
        rw [← h]
        exact merge_index i (to_decimal_asset a pi) (to_decimal d.amount qi)
          hca_i hds_i
      · intro h0
        rw [← h, merge_zero (convert_zero hds h0), hca]

/-- Witness for C5: two assets with precisions 0 and 1; on-chain amounts
100 and 200, off-chain 50 and 0; the merged vector is index-aligned with
merged[0] = 100 + 50. -/
theorem claim_reserve_alignment_witness :
    ∃ res, query_pools [⟨1, 100⟩, ⟨2, 200⟩] [(1, 0), (2, 1)]
        (some [⟨1, 50⟩, ⟨2, 0⟩]) [] = .ok res ∧
      res.length = 2 ∧
      ∃ pi qi, get_precision [(1, 0), (2, 1)] 1 = .ok pi ∧
        get_precision [(1, 0), (2, 1)] 1 = .ok qi ∧
        res[0]? = some ⟨1, to_decimal 100 pi + to_decimal 50 qi⟩ := by
  have h : query_pools [⟨1, 100⟩, ⟨2, 200⟩] [(1, 0), (2, 1)]
      (some [⟨1, 50⟩, ⟨2, 0⟩]) [] =
      .ok [⟨1, to_decimal 100 0 + to_decimal 50 0⟩,
           ⟨2, to_decimal 200 1 + to_decimal 0 1⟩] := by
    have h1 : get_precision [(1, 0), (2, 1)] 1 = .ok 0 := rfl
    have h2 : get_precision [(1, 0), (2, 1)] 2 = .ok 1 := rfl
    simp only [query_pools, query_contract_balances, convert_deposits,
      h1, h2, to_decimal_asset, merge_deposits]
  have hc := claim_reserve_alignment [⟨1, 100⟩, ⟨2, 200⟩] [⟨1, 50⟩, ⟨2, 0⟩]
    [(1, 0), (2, 1)] _ rfl h
  exact ⟨_, h, hc.1, hc.2.1 0 ⟨1, 100⟩ ⟨1, 50⟩ rfl rfl⟩

/-- C9: if the precision lookup fails for any asset in the configured
list, balance reconciliation aborts the entire call with the UnknownAsset
error, returning no truncated reserve vector (an error carries no result
in this embedding), and no error is downgraded to a default value. -/
theorem claim_unknown_asset (pools : List Asset) (ps : Precisions)
    (subacc_deposits : Option (List Asset)) (queried_deposits : List Rat)
    (a : Asset) (ha : a ∈ pools)
    (hp : get_precision ps a.info = .error .UnknownAsset) :
    query_pools pools ps subacc_deposits queried_deposits =
      .error .UnknownAsset := by
  unfold query_pools
  rw [qcb_error ha hp]

/-- Witness for C9: asset 3 has no precision entry, so the whole
reconciliation fails with UnknownAsset. -/
theorem claim_unknown_asset_witness :
    query_pools [⟨1, 100⟩, ⟨3, 5⟩] [(1, 0)] (some []) [] =
      .error .UnknownAsset :=
  claim_unknown_asset [⟨1, 100⟩, ⟨3, 5⟩] [(1, 0)] (some []) [] ⟨3, 5⟩
    (by decide) rfl

end AstroportInj
